import Mathlib

/-!
Shallow embedding of the CodeConductor conversation-worker registry
(`WorkerManage`: `buildConversation`, `getTaskById`, `getTaskByIdRollbackBuild`,
`kill`, `clear`, `addTask`, `listTasks`) and of the tool-event resolver
(`ToolRegistry`: builtin/MCP tool tables, event-type mapping,
`registerMcpTool`/`adaptMcpTool`, `resolveToolForEvent` and its helpers).

Mutable JS state is modelled by explicit state passing: the module-global
`taskList` array becomes a `RegState` value threaded through the operations,
and the `ToolRegistry` instance fields become a `ToolRegistry` value.
JS `Map`s are modelled as insertion-ordered association lists with
replace-on-set semantics.  Reference identity of constructed tasks is
modelled by an allocation counter (`RegState.nextId`): each constructed
task receives the current counter value as its `tid`.

The agent-manager classes (`AcpAgentManager`, `CodexAgentManager`,
`BaseAgentManager`) are external to the analysed module; a task is modelled
by its observables used by the registry: its identity (`tid`), its `type`
string, and whether its `kill()` method throws when invoked (`killThrows`).
Operations that invoke `task.kill()` additionally return the list of task
identities on which `kill()` was invoked (`signaled`), and a `threw` flag
recording whether the operation terminated by a propagating exception
(the source has no try/catch around `task.kill()`).
-/

namespace CodeConductor

/-- Conversation type tag of `TChatConversation.type`: the switch in
`buildConversation` handles the cases `acp` and `codex`; every other tag
falls in the default branch. -/
inductive ConvType
  | acp
  | codex
  | other (tag : String)
deriving DecidableEq, Repr

/-- Conversation metadata (`TChatConversation`): its `id` and its `type`.
The backend-specific `extra` payload is irrelevant to the registry logic
and is not modelled. -/
structure Conversation where
  id : String
  ctype : ConvType
deriving DecidableEq, Repr

/-- Worker task (`AgentBaseTask`): `tid` models JS reference identity
(allocation order), `ttype` models `task.type`, and `killThrows` models
whether the task's external `kill()` implementation throws when invoked. -/
structure WTask where
  tid : Nat
  ttype : String
  killThrows : Bool
deriving DecidableEq, Repr

/-- One element of the module-global `taskList` array: `{ id, task }`. -/
structure TaskEntry where
  id : String
  task : WTask
deriving DecidableEq, Repr

/-- Registry state: the `taskList` array plus the allocation counter used
to model the identity of newly constructed tasks. -/
structure RegState where
  tasks : List TaskEntry
  nextId : Nat
deriving DecidableEq, Repr

/-- Initial registry state: empty `taskList`. -/
def emptyReg : RegState := ⟨[], 0⟩

/-- Source `getTaskById`: `taskList.find((item) => item.id === id)?.task`. -/
def getTaskById (s : RegState) (id : String) : Option WTask :=
  (s.tasks.find? (fun e => decide (e.id = id))).map (fun e => e.task)

/-- Source `buildConversation`: returns the cached task when the id is
present, otherwise dispatches on the conversation type, constructing and
pushing a task for `acp` and `codex` and returning `null` (here `none`)
for any other type. -/
def buildConversation (s : RegState) (conv : Conversation) : Option WTask × RegState :=
  match getTaskById s conv.id with
  | some task => (some task, s)
  | none =>
    match conv.ctype with
    | ConvType.acp =>
      let task : WTask := ⟨s.nextId, "acp", false⟩
      (some task, ⟨s.tasks ++ [⟨conv.id, task⟩], s.nextId + 1⟩)
    | ConvType.codex =>
      let task : WTask := ⟨s.nextId, "codex", false⟩
      (some task, ⟨s.tasks ++ [⟨conv.id, task⟩], s.nextId + 1⟩)
    | ConvType.other _ => (none, s)

/-- Result of `kill`/`clear`: the registry state after the call, whether
the call terminated by a propagating exception, and the identities of the
tasks on which `task.kill()` was invoked. -/
structure KillResult where
  state : RegState
  threw : Bool
  signaled : List Nat
deriving DecidableEq, Repr

/-- Source `kill`: `findIndex`, early return on `-1`, `task.task.kill()`
(not wrapped in try/catch: a throwing `kill()` propagates and the
subsequent `splice` is not executed), then `splice(index, 1)`. -/
def kill (id : String) (s : RegState) : KillResult :=
  match s.tasks.findIdx? (fun e => decide (e.id = id)) with
  | none => ⟨s, false, []⟩
  | some i =>
    match s.tasks[i]? with
    | none => ⟨⟨s.tasks.eraseIdx i, s.nextId⟩, false, []⟩
    | some e =>
      if e.task.killThrows then ⟨s, true, [e.task.tid]⟩
      else ⟨⟨s.tasks.eraseIdx i, s.nextId⟩, false, [e.task.tid]⟩

/-- Helper for `clear`: identities of the tasks whose `kill()` is invoked
by the `forEach` before the first throwing one (inclusive) stops it. -/
def clearSignals : List TaskEntry → List Nat
  | [] => []
  | e :: rest =>
    if e.task.killThrows then [e.task.tid] else e.task.tid :: clearSignals rest

/-- Source `clear`: `taskList.forEach((item) => item.task.kill())` followed
by `taskList.length = 0`.  A throwing `task.kill()` propagates out of the
`forEach`, so the truncation is not executed and the list is unchanged. -/
def clear (s : RegState) : KillResult :=
  if s.tasks.any (fun e => e.task.killThrows) then ⟨s, true, clearSignals s.tasks⟩
  else ⟨⟨[], s.nextId⟩, false, clearSignals s.tasks⟩

/-- Source `addTask`: replaces the task of the first existing entry with
the given id in place (`existing.task = task`), otherwise pushes a new
entry.  The second component lists the task identities on which `kill()`
was invoked: `addTask` invokes no `kill()` at all. -/
def addTask (id : String) (task : WTask) (s : RegState) : RegState × List Nat :=
  match s.tasks.findIdx? (fun e => decide (e.id = id)) with
  | some i => (⟨s.tasks.set i ⟨id, task⟩, s.nextId⟩, [])
  | none => (⟨s.tasks ++ [⟨id, task⟩], s.nextId⟩, [])

/-- Source `listTasks`: `taskList.map((t) => ({ id: t.id, type: t.task.type }))`. -/
def listTasks (s : RegState) : List (String × String) :=
  s.tasks.map (fun e => (e.id, e.task.ttype))

/-- Result shape of `db.getConversation(id)`: a `{ success, data }` record.
The recovery path proceeds on `dbResult.success && dbResult.data`. -/
structure DbResult where
  success : Bool
  data : Option Conversation

/-- External persistence collaborators of `getTaskByIdRollbackBuild`:
the primary database store (`getDatabase().getConversation`) and the
secondary flat-history store (`ProcessChat.get('chat.history')`, which may
be `undefined`). -/
structure Env where
  dbGetConversation : String → DbResult
  chatHistory : Option (List Conversation)

/-- Source `getTaskByIdRollbackBuild`: in-memory lookup first; on miss the
primary database store; on miss there the secondary flat history list; and
when both miss, rejection with `Error('Conversation not found')`.  A hit
in either store is passed to `buildConversation`. -/
def getTaskByIdRollbackBuild (env : Env) (id : String) (s : RegState) :
    Except String (Option WTask × RegState) :=
  match getTaskById s id with
  | some task => Except.ok (some task, s)
  | none =>
    let dbResult := env.dbGetConversation id
    match dbResult.success, dbResult.data with
    | true, some conv => Except.ok (buildConversation s conv)
    | _, _ =>
      match env.chatHistory.bind (fun list => list.find? (fun item => decide (item.id = id))) with
      | some conversation => Except.ok (buildConversation s conversation)
      | none => Except.error "Conversation not found"

/-- One invocation of a `WorkerManage` registry operation, with its
arguments. -/
inductive RegOp
  | build (conv : Conversation)
  | rollback (env : Env) (id : String)
  | add (id : String) (task : WTask)
  | kill (id : String)
  | clear

/-- State reached after executing one registry operation (results and
errors are discarded; a rejected recovery leaves the state unchanged). -/
def applyOp (op : RegOp) (s : RegState) : RegState :=
  match op with
  | RegOp.build conv => (buildConversation s conv).2
  | RegOp.rollback env id =>
    match getTaskByIdRollbackBuild env id s with
    | Except.ok (_, s2) => s2
    | Except.error _ => s
  | RegOp.add id task => (addTask id task s).1
  | RegOp.kill id => (kill id s).state
  | RegOp.clear => (clear s).state

/-- State reached from the empty registry by a finite sequence of
registry operations. -/
def runOps (ops : List RegOp) : RegState :=
  ops.foldl (fun s op => applyOp op s) emptyReg

/-- Invariant: the conversation→task list holds at most one entry per
conversation id. -/
def distinctIds (s : RegState) : Prop :=
  (s.tasks.map (fun e => e.id)).Nodup

/-- Conversation types for which `buildConversation` has a construction
branch (the `acp` and `codex` cases of the switch). -/
def supportedType : ConvType → Bool
  | ConvType.acp => true
  | ConvType.codex => true
  | ConvType.other _ => false

/-- Task value that `buildConversation` constructs on a cache miss for a
given conversation type, in a registry state with the given allocation
counter (`none` for unsupported types). -/
def builtTask (s : RegState) : ConvType → Option WTask
  | ConvType.acp => some ⟨s.nextId, "acp", false⟩
  | ConvType.codex => some ⟨s.nextId, "codex", false⟩
  | ConvType.other _ => none

/-- Tool category enum (`ToolCategory`). -/
inductive ToolCategory
  | EXECUTION
  | FILE_OPS
  | SEARCH
  | ANALYSIS
  | COMMUNICATION
  | CUSTOM
deriving DecidableEq, Repr

/-- Output format enum (`OutputFormat`): the members used by the module. -/
inductive OutputFormat
  | TEXT
  | MARKDOWN
  | JSON
deriving DecidableEq, Repr

/-- Renderer type enum (`RendererType`): the members used by the module. -/
inductive RendererType
  | STANDARD
  | CODE
  | MARKDOWN
  | CHART
deriving DecidableEq, Repr

/-- Platform availability of a tool (`ToolAvailability`): the platform
list compared against `process.platform`, plus the optional
`experimental` flag. -/
structure ToolAvailability where
  platforms : List String
  experimental : Option Bool
deriving DecidableEq, Repr

/-- Capability flags of a tool (`ToolCapabilities`). -/
structure ToolCapabilities where
  supportsStreaming : Bool
  supportsImages : Bool
  supportsCharts : Bool
  supportsMarkdown : Bool
  supportsInteraction : Bool
  outputFormats : List OutputFormat
deriving DecidableEq, Repr

/-- Renderer choice of a tool (`ToolRenderer`); the heterogeneous JS
config object is modelled as string key-value pairs. -/
structure ToolRenderer where
  type : RendererType
  config : List (String × String)
deriving DecidableEq, Repr

/-- MCP tool input schema: only the names of the keys of its `properties`
record are observed by the module (`stream`, `image`, `img`). -/
structure InputSchema where
  properties : Option (List String)
deriving DecidableEq, Repr

/-- Tool descriptor (`ToolDefinition`). -/
structure ToolDefinition where
  id : String
  name : String
  displayNameKey : String
  category : ToolCategory
  priority : Nat
  availability : ToolAvailability
  capabilities : ToolCapabilities
  renderer : ToolRenderer
  icon : String
  descriptionKey : String
  schema : Option InputSchema
deriving DecidableEq, Repr

/-- MCP tool registration info (`McpToolInfo`). -/
structure McpToolInfo where
  serverName : String
  name : String
  description : Option String
  inputSchema : Option InputSchema
deriving DecidableEq, Repr

/-- Backend event type enum (`CodexAgentEventType`): the members consulted
by the tool registry; `OTHER` stands for every further member of the
source enum, none of which has an `eventTypeMapping` entry. -/
inductive CodexAgentEventType
  | EXEC_COMMAND_BEGIN
  | EXEC_COMMAND_OUTPUT_DELTA
  | EXEC_COMMAND_END
  | APPLY_PATCH_APPROVAL_REQUEST
  | PATCH_APPLY_BEGIN
  | PATCH_APPLY_END
  | WEB_SEARCH_BEGIN
  | WEB_SEARCH_END
  | MCP_TOOL_CALL_BEGIN
  | MCP_TOOL_CALL_END
  | OTHER (tag : String)
deriving DecidableEq, Repr

/-- Raw MCP call info (`McpInvocation`): an object that may expose a
string `method` field and/or a string `name` field. -/
structure McpInvocation where
  method : Option String
  name : Option String
deriving DecidableEq, Repr

/-- Event payload of an MCP tool-call begin/end event: an object that may
carry an `invocation` field. -/
structure McpEventData where
  invocation : Option McpInvocation
deriving DecidableEq, Repr

/-- State of a `ToolRegistry` instance: the `tools` map, the `mcpTools`
map and the `eventTypeMapping` map, each modelled as an insertion-ordered
association list with replace-on-set semantics (JS `Map`). -/
structure ToolRegistry where
  tools : List ToolDefinition
  mcpTools : List ToolDefinition
  eventTypeMapping : List (CodexAgentEventType × List String)
deriving DecidableEq, Repr

/-- JS `Map.set` keyed by `ToolDefinition.id`: replaces the entry with the
same key in place, otherwise appends. -/
def mapSet (l : List ToolDefinition) (t : ToolDefinition) : List ToolDefinition :=
  if l.any (fun x => decide (x.id = t.id)) then
    l.map (fun x => if x.id = t.id then t else x)
  else l ++ [t]

/-- JS `Map.get` keyed by `ToolDefinition.id`. -/
def mapGet (l : List ToolDefinition) (id : String) : Option ToolDefinition :=
  l.find? (fun x => decide (x.id = id))

/-- JS `Map.set` for the event-type mapping. -/
def mappingSet (m : List (CodexAgentEventType × List String))
    (k : CodexAgentEventType) (ids : List String) :
    List (CodexAgentEventType × List String) :=
  if m.any (fun p => decide (p.1 = k)) then
    m.map (fun p => if p.1 = k then (k, ids) else p)
  else m ++ [(k, ids)]

/-- JS `Map.get` for the event-type mapping. -/
def mappingGet (m : List (CodexAgentEventType × List String))
    (k : CodexAgentEventType) : Option (List String) :=
  (m.find? (fun p => decide (p.1 = k))).map (fun p => p.2)

/-- Lowercasing modelling JS `String.prototype.toLowerCase`, computed on
the character list. -/
def strToLower (s : String) : String :=
  String.mk (s.toList.map Char.toLower)

/-- Suffix test modelling JS `String.prototype.endsWith`. -/
def strEndsWith (s suffix : String) : Bool :=
  suffix.toList.isSuffixOf s.toList

/-- Substring test modelling JS `String.prototype.includes`. -/
def strContains (s sub : String) : Bool :=
  (List.range (s.length + 1)).any
    (fun i => decide ((s.toList.drop i).take sub.length = sub.toList))

/-- Builtin descriptor `shell_exec` as authored in
`initializeBuiltinTools`. -/
def shellExecTool : ToolDefinition :=
  { id := "shell_exec"
    name := "Shell"
    displayNameKey := "tools.shell.displayName"
    category := ToolCategory.EXECUTION
    priority := 10
    availability := ⟨["darwin", "linux", "win32"], none⟩
    capabilities := ⟨true, false, false, true, true, [OutputFormat.TEXT, OutputFormat.MARKDOWN]⟩
    renderer := ⟨RendererType.STANDARD, [("showTimestamp", "true")]⟩
    icon := "[x]"
    descriptionKey := "tools.shell.description"
    schema := none }

/-- Builtin descriptor `agent_browser` as authored in
`initializeBuiltinTools`. -/
def agentBrowserTool : ToolDefinition :=
  { id := "agent_browser"
    name := "AgentBrowser"
    displayNameKey := "tools.agentBrowser.displayName"
    category := ToolCategory.EXECUTION
    priority := 15
    availability := ⟨["darwin", "linux", "win32"], none⟩
    capabilities := ⟨false, false, false, true, false, [OutputFormat.TEXT, OutputFormat.MARKDOWN]⟩
    renderer := ⟨RendererType.STANDARD, [("showTimestamp", "true")]⟩
    icon := "[*]"
    descriptionKey := "tools.agentBrowser.description"
    schema := none }

/-- Builtin descriptor `file_operations` as authored in
`initializeBuiltinTools`. -/
def fileOperationsTool : ToolDefinition :=
  { id := "file_operations"
    name := "FileOps"
    displayNameKey := "tools.fileOps.displayName"
    category := ToolCategory.FILE_OPS
    priority := 20
    availability := ⟨["darwin", "linux", "win32"], none⟩
    capabilities := ⟨false, false, false, true, true, [OutputFormat.TEXT, OutputFormat.MARKDOWN]⟩
    renderer := ⟨RendererType.CODE, [("language", "diff")]⟩
    icon := "[~]"
    descriptionKey := "tools.fileOps.description"
    schema := none }

/-- Builtin descriptor `web_search` as authored in
`initializeBuiltinTools`. -/
def webSearchTool : ToolDefinition :=
  { id := "web_search"
    name := "WebSearch"
    displayNameKey := "tools.webSearch.displayName"
    category := ToolCategory.SEARCH
    priority := 30
    availability := ⟨["darwin", "linux", "win32"], none⟩
    capabilities := ⟨false, true, false, true, false, [OutputFormat.TEXT, OutputFormat.MARKDOWN]⟩
    renderer := ⟨RendererType.MARKDOWN, [("showSources", "true")]⟩
    icon := "[?]"
    descriptionKey := "tools.webSearch.description"
    schema := none }

/-- Source `registerBuiltinTool`: `this.tools.set(tool.id, tool)`. -/
def registerBuiltinTool (reg : ToolRegistry) (tool : ToolDefinition) : ToolRegistry :=
  { reg with tools := mapSet reg.tools tool }

/-- Source `inferCategory`: substring heuristics over the lowercased name
and description.  Note that the description is only consulted for the
keyword `search` (first branch); every other branch tests the name only. -/
def inferCategory (mcpTool : McpToolInfo) : ToolCategory :=
  let name := strToLower mcpTool.name
  let description := strToLower (mcpTool.description.getD "")
  if strContains name "search" || strContains name "find" || strContains name "query"
      || strContains description "search" then ToolCategory.SEARCH
  else if strContains name "file" || strContains name "read" || strContains name "write"
      || strContains name "edit" then ToolCategory.FILE_OPS
  else if strContains name "exec" || strContains name "run" || strContains name "command"
      || strContains name "shell" then ToolCategory.EXECUTION
  else if strContains name "chart" || strContains name "plot" || strContains name "analyze"
      || strContains name "graph" then ToolCategory.ANALYSIS
  else if strContains name "http" || strContains name "api" || strContains name "request"
      || strContains name "fetch" then ToolCategory.COMMUNICATION
  else ToolCategory.CUSTOM

/-- Source `inferCapabilities`: streaming iff the schema has a `stream`
property, images iff it has an `image` or `img` property; markdown and
interaction default to true, charts to false. -/
def inferCapabilities (inputSchema : Option InputSchema) : ToolCapabilities :=
  let properties := (inputSchema.bind (fun s => s.properties)).getD []
  let hasStreamParam := properties.contains "stream"
  let hasImageParam := properties.contains "image" || properties.contains "img"
  ⟨hasStreamParam, hasImageParam, false, true, true, [OutputFormat.TEXT, OutputFormat.MARKDOWN]⟩

/-- Source `selectRenderer`: renderer chosen by the inferred category. -/
def selectRenderer (mcpTool : McpToolInfo) : ToolRenderer :=
  match inferCategory mcpTool with
  | ToolCategory.FILE_OPS => ⟨RendererType.CODE, []⟩
  | ToolCategory.ANALYSIS => ⟨RendererType.CHART, []⟩
  | ToolCategory.SEARCH => ⟨RendererType.MARKDOWN, []⟩
  | _ => ⟨RendererType.STANDARD, []⟩

/-- Source `getIconForCategory`. -/
def getIconForCategory (category : ToolCategory) : String :=
  match category with
  | ToolCategory.EXECUTION => "[x]"
  | ToolCategory.FILE_OPS => "[~]"
  | ToolCategory.SEARCH => "[?]"
  | ToolCategory.ANALYSIS => "[#]"
  | ToolCategory.COMMUNICATION => "[*]"
  | ToolCategory.CUSTOM => "[+]"

/-- Source `adaptMcpTool`: synthesizes a descriptor keyed
`{serverName}/{name}` with priority 100, experimental availability on all
three platforms, inferred category/capabilities/renderer/icon. -/
def adaptMcpTool (mcpTool : McpToolInfo) : ToolDefinition :=
  let fullyQualifiedName := mcpTool.serverName ++ "/" ++ mcpTool.name
  { id := fullyQualifiedName
    name := mcpTool.name
    displayNameKey := "tools.mcp." ++ mcpTool.serverName ++ "." ++ mcpTool.name ++ ".displayName"
    category := inferCategory mcpTool
    priority := 100
    availability := ⟨["darwin", "linux", "win32"], some true⟩
    capabilities := inferCapabilities mcpTool.inputSchema
    renderer := selectRenderer mcpTool
    icon := getIconForCategory (inferCategory mcpTool)
    descriptionKey := "tools.mcp." ++ mcpTool.serverName ++ "." ++ mcpTool.name ++ ".description"
    schema := mcpTool.inputSchema }

/-- Source `registerMcpTool`: `this.mcpTools.set(toolDef.id, toolDef)`
with `toolDef = adaptMcpTool(mcpTool)`. -/
def registerMcpTool (reg : ToolRegistry) (mcpTool : McpToolInfo) : ToolRegistry :=
  { reg with mcpTools := mapSet reg.mcpTools (adaptMcpTool mcpTool) }

/-- Registry state after the constructor ran `initializeBuiltinTools`:
the four builtins registered in order, then the eight event-type mapping
entries set in order. -/
def initialRegistry : ToolRegistry :=
  let r0 : ToolRegistry := ⟨[], [], []⟩
  let r1 := registerBuiltinTool r0 shellExecTool
  let r2 := registerBuiltinTool r1 agentBrowserTool
  let r3 := registerBuiltinTool r2 fileOperationsTool
  let r4 := registerBuiltinTool r3 webSearchTool
  let m0 := mappingSet r4.eventTypeMapping CodexAgentEventType.EXEC_COMMAND_BEGIN ["shell_exec"]
  let m1 := mappingSet m0 CodexAgentEventType.EXEC_COMMAND_OUTPUT_DELTA ["shell_exec"]
  let m2 := mappingSet m1 CodexAgentEventType.EXEC_COMMAND_END ["shell_exec"]
  let m3 := mappingSet m2 CodexAgentEventType.APPLY_PATCH_APPROVAL_REQUEST ["file_operations"]
  let m4 := mappingSet m3 CodexAgentEventType.PATCH_APPLY_BEGIN ["file_operations"]
  let m5 := mappingSet m4 CodexAgentEventType.PATCH_APPLY_END ["file_operations"]
  let m6 := mappingSet m5 CodexAgentEventType.WEB_SEARCH_BEGIN ["web_search"]
  let m7 := mappingSet m6 CodexAgentEventType.WEB_SEARCH_END ["web_search"]
  { r4 with eventTypeMapping := m7 }

/-- Source `extractMethodFromInvocation`: the string `method` field when
present, else the string `name` field when present, else the empty
string. -/
def extractMethodFromInvocation (invocation : McpInvocation) : String :=
  match invocation.method with
  | some m => m
  | none =>
    match invocation.name with
    | some n => n
    | none => ""

/-- Source `inferMcpToolId`: empty string when the extracted method is
falsy; otherwise the key of the first registered MCP descriptor whose id
ends with `/{method}` or whose name equals `method`, or the empty string
when none matches. -/
def inferMcpToolId (reg : ToolRegistry) (invocation : McpInvocation) : String :=
  let method := extractMethodFromInvocation invocation
  if method = "" then ""
  else
    match reg.mcpTools.find?
        (fun t => strEndsWith t.id ("/" ++ method) || decide (t.name = method)) with
    | some t => t.id
    | none => ""

/-- Source `createGenericMcpTool`: the synthesized fallback descriptor for
an MCP call that matched no registered descriptor.  The carried method
name defaults to `McpTool` when the invocation is absent or its extracted
method is falsy. -/
def createGenericMcpTool (invocation : Option McpInvocation) : ToolDefinition :=
  let method :=
    match invocation with
    | some inv =>
      let m := extractMethodFromInvocation inv
      if m = "" then "McpTool" else m
    | none => "McpTool"
  { id := "generic_mcp_" ++ method
    name := method
    displayNameKey := "tools.mcp.generic.displayName"
    category := ToolCategory.CUSTOM
    priority := 200
    availability := ⟨["darwin", "linux", "win32"], some true⟩
    capabilities := ⟨false, true, true, true, false,
      [OutputFormat.TEXT, OutputFormat.MARKDOWN, OutputFormat.JSON]⟩
    renderer := ⟨RendererType.STANDARD, []⟩
    icon := "[+]"
    descriptionKey := "tools.mcp.generic.description"
    schema := none }

/-- Source `isToolAvailable`: membership of the current runtime platform
(`process.platform`, here an explicit parameter) in the descriptor's
platform list. -/
def isToolAvailable (platform : String) (tool : ToolDefinition) : Bool :=
  tool.availability.platforms.contains platform

/-- Source `getDefaultTool`: the terminal `unknown` descriptor (the event
type parameter is ignored by the source as well). -/
def getDefaultTool (_eventType : CodexAgentEventType) : ToolDefinition :=
  { id := "unknown"
    name := "Unknown"
    displayNameKey := "tools.unknown.displayName"
    category := ToolCategory.CUSTOM
    priority := 999
    availability := ⟨["darwin", "linux", "win32"], none⟩
    capabilities := ⟨false, false, false, false, false, [OutputFormat.TEXT]⟩
    renderer := ⟨RendererType.STANDARD, []⟩
    icon := "[.]"
    descriptionKey := "tools.unknown.description"
    schema := none }

/-- Predicate for the MCP tool-call begin/end event types. -/
def isMcpToolEvent : CodexAgentEventType → Bool
  | CodexAgentEventType.MCP_TOOL_CALL_BEGIN => true
  | CodexAgentEventType.MCP_TOOL_CALL_END => true
  | _ => false

/-- Stable insertion of a descriptor into a priority-sorted list: the
inserted element goes before the first element of priority not smaller
than its own. -/
def insertByPriority (t : ToolDefinition) : List ToolDefinition → List ToolDefinition
  | [] => [t]
  | u :: rest =>
    if u.priority < t.priority then u :: insertByPriority t rest else t :: u :: rest

/-- Stable ascending sort by numeric priority, modelling
`sort((a, b) => a.priority - b.priority)`. -/
def sortByPriority (l : List ToolDefinition) : List ToolDefinition :=
  l.foldr insertByPriority []

/-- Candidate pipeline of the non-MCP branch of `resolveToolForEvent`
before sorting: candidate ids from the event-type mapping, each resolved
against the builtin table and then the MCP table (`get || get`, dropped
when both miss), then filtered by platform availability. -/
def survivorsFor (reg : ToolRegistry) (platform : String)
    (eventType : CodexAgentEventType) : List ToolDefinition :=
  (((mappingGet reg.eventTypeMapping eventType).getD []).filterMap
      (fun id => (mapGet reg.tools id).or (mapGet reg.mcpTools id))).filter
    (isToolAvailable platform)

/-- Survivors sorted ascending by priority (`availableTools` in the
source). -/
def availableToolsFor (reg : ToolRegistry) (platform : String)
    (eventType : CodexAgentEventType) : List ToolDefinition :=
  sortByPriority (survivorsFor reg platform eventType)

/-- Source `resolveToolForEvent`: MCP begin/end events resolve through
`inferMcpToolId` with the generic MCP fallback; every other event type
goes through the candidate pipeline with the `unknown` descriptor as
terminal fallback. -/
def resolveToolForEvent (reg : ToolRegistry) (platform : String)
    (eventType : CodexAgentEventType) (eventData : Option McpEventData) : ToolDefinition :=
  if isMcpToolEvent eventType then
    match eventData.bind (fun d => d.invocation) with
    | some invocation =>
      let toolId := inferMcpToolId reg invocation
      match mapGet reg.mcpTools toolId with
      | some mcpTool => mcpTool
      | none => createGenericMcpTool (some invocation)
    | none => createGenericMcpTool none
  else
    match availableToolsFor reg platform eventType with
    | t :: _ => t
    | [] => getDefaultTool eventType

/-- Source `getAllTools`: builtin table values then MCP table values. -/
def getAllTools (reg : ToolRegistry) : List ToolDefinition :=
  reg.tools ++ reg.mcpTools

/-- Source `getTool`: builtin table first, then the MCP table. -/
def getTool (reg : ToolRegistry) (id : String) : Option ToolDefinition :=
  (mapGet reg.tools id).or (mapGet reg.mcpTools id)

/-- Condition of the first branch of `inferCategory`: the lowercased name
contains `search`, `find` or `query`, or the lowercased description
contains `search`. -/
def mcpSearchCond (info : McpToolInfo) : Bool :=
  strContains (strToLower info.name) "search" || strContains (strToLower info.name) "find" ||
    strContains (strToLower info.name) "query" ||
    strContains (strToLower (info.description.getD "")) "search"

/-- Condition of the second branch of `inferCategory`: the lowercased
name contains `file`, `read`, `write` or `edit`. -/
def mcpFileCond (info : McpToolInfo) : Bool :=
  strContains (strToLower info.name) "file" || strContains (strToLower info.name) "read" ||
    strContains (strToLower info.name) "write" || strContains (strToLower info.name) "edit"

/-- Condition of the third branch of `inferCategory`: the lowercased name
contains `exec`, `run`, `command` or `shell`. -/
def mcpExecCond (info : McpToolInfo) : Bool :=
  strContains (strToLower info.name) "exec" || strContains (strToLower info.name) "run" ||
    strContains (strToLower info.name) "command" || strContains (strToLower info.name) "shell"

/-- Condition of the fourth branch of `inferCategory`: the lowercased
name contains `chart`, `plot`, `analyze` or `graph`. -/
def mcpAnalysisCond (info : McpToolInfo) : Bool :=
  strContains (strToLower info.name) "chart" || strContains (strToLower info.name) "plot" ||
    strContains (strToLower info.name) "analyze" || strContains (strToLower info.name) "graph"

/-- Condition of the fifth branch of `inferCategory`: the lowercased name
contains `http`, `api`, `request` or `fetch`. -/
def mcpCommCond (info : McpToolInfo) : Bool :=
  strContains (strToLower info.name) "http" || strContains (strToLower info.name) "api" ||
    strContains (strToLower info.name) "request" || strContains (strToLower info.name) "fetch"

/-- Registry with two candidate ids for one event type, of priorities 10
and 20, used to exercise priority-ranked resolution. -/
def regTwoCandidates : ToolRegistry :=
  { initialRegistry with
    eventTypeMapping :=
      mappingSet initialRegistry.eventTypeMapping CodexAgentEventType.EXEC_COMMAND_BEGIN
        ["shell_exec", "file_operations"] }

lemma getTaskById_eq_none_iff (s : RegState) (id : String) :
    getTaskById s id = none ↔ ∀ e ∈ s.tasks, e.id ≠ id := by
  simp [getTaskById, List.find?_eq_none]

lemma findIdx_none_iff {α : Type} (p : α → Bool) (l : List α) :
    l.findIdx? p = none ↔ ∀ e ∈ l, ¬ p e = true := by
  induction l with
  | nil => simp
  | cons a rest ih =>
    rw [List.findIdx?_cons]
    by_cases h : p a <;> simp [h, List.findIdx?_succ, ih]

lemma findIdx_some_prop {α : Type} (p : α → Bool) (l : List α) (i : Nat)
    (h : l.findIdx? p = some i) : ∃ e, l[i]? = some e ∧ p e = true := by
  induction l generalizing i with
  | nil => simp at h
  | cons a rest ih =>
    rw [List.findIdx?_cons] at h
    by_cases hp : p a
    · simp [hp] at h
      subst h
      exact ⟨a, by simp, hp⟩
    · simp [hp, List.findIdx?_succ] at h
      obtain ⟨j, hj, hij⟩ := h
      obtain ⟨e, he, hpe⟩ := ih j hj
      exact ⟨e, by simpa [← hij, List.getElem?_cons_succ] using he, hpe⟩

lemma list_set_self {α : Type} (l : List α) (i : Nat) (a : α)
    (h : l[i]? = some a) : l.set i a = l := by
  induction l generalizing i with
  | nil => simp at h
  | cons x rest ih =>
    cases i with
    | zero =>
      simp at h
      simp [h]
    | succ j =>
      simp [List.getElem?_cons_succ] at h
      simp [List.set_cons_succ, ih j h]

lemma kill_cons (id : String) (e : TaskEntry) (rest : List TaskEntry) (n : Nat) :
    kill id ⟨e :: rest, n⟩ =
      if e.id = id then
        (if e.task.killThrows then ⟨⟨e :: rest, n⟩, true, [e.task.tid]⟩
         else ⟨⟨rest, n⟩, false, [e.task.tid]⟩)
      else
        ⟨⟨e :: (kill id ⟨rest, n⟩).state.tasks, n⟩, (kill id ⟨rest, n⟩).threw,
          (kill id ⟨rest, n⟩).signaled⟩ := by
  by_cases h : e.id = id
  · cases hk : e.task.killThrows <;>
      simp [kill, List.findIdx?_cons, h, hk]
  · cases hfind : rest.findIdx? (fun x => decide (x.id = id)) with
    | none =>
      simp [kill, List.findIdx?_cons, h, List.findIdx?_succ, hfind]
    | some i =>
      cases helem : rest[i]? with
      | none =>
        simp [kill, List.findIdx?_cons, h, List.findIdx?_succ, hfind,
          List.getElem?_cons_succ, helem, List.eraseIdx_cons_succ]
      | some e2 =>
        cases hk : e2.task.killThrows <;>
          simp [kill, List.findIdx?_cons, h, List.findIdx?_succ, hfind,
            List.getElem?_cons_succ, helem, List.eraseIdx_cons_succ, hk]

lemma addTask_cons (id : String) (t : WTask) (e : TaskEntry) (rest : List TaskEntry) (n : Nat) :
    addTask id t ⟨e :: rest, n⟩ =
      if e.id = id then (⟨⟨id, t⟩ :: rest, n⟩, [])
      else (⟨e :: (addTask id t ⟨rest, n⟩).1.tasks, n⟩, []) := by
  by_cases h : e.id = id
  · simp [addTask, List.findIdx?_cons, h]
  · cases hfind : rest.findIdx? (fun x => decide (x.id = id)) with
    | none =>
      simp [addTask, List.findIdx?_cons, h, List.findIdx?_succ, hfind]
    | some i =>
      simp [addTask, List.findIdx?_cons, h, List.findIdx?_succ, hfind,
        List.set_cons_succ]

lemma kill_absent (id : String) (s : RegState) (h : getTaskById s id = none) :
    kill id s = ⟨s, false, []⟩ := by
  have h' : s.tasks.findIdx? (fun e => decide (e.id = id)) = none := by
    rw [findIdx_none_iff]
    intro e he
    have := (getTaskById_eq_none_iff s id).mp h e he
    simpa using this
  cases s with
  | mk tasks n => simp [kill, h']

lemma kill_found_throw (id : String) (s : RegState) (e : TaskEntry)
    (hf : s.tasks.find? (fun x => decide (x.id = id)) = some e)
    (hk : e.task.killThrows = true) :
    kill id s = ⟨s, true, [e.task.tid]⟩ := by
  obtain ⟨tasks, n⟩ := s
  induction tasks with
  | nil => simp at hf
  | cons a rest ih =>
    rw [kill_cons]
    by_cases h : a.id = id
    · rw [List.find?_cons] at hf
      simp [h] at hf
      subst hf
      simp [h, hk]
    · rw [List.find?_cons] at hf
      simp [h] at hf
      rw [if_neg h, ih hf]

lemma kill_found_ok (id : String) (s : RegState) (e : TaskEntry)
    (hd : distinctIds s)
    (hf : s.tasks.find? (fun x => decide (x.id = id)) = some e)
    (hk : e.task.killThrows = false) :
    (kill id s).threw = false ∧ (kill id s).signaled = [e.task.tid] ∧
      (kill id s).state.nextId = s.nextId ∧
      getTaskById (kill id s).state id = none := by
  obtain ⟨tasks, n⟩ := s
  induction tasks with
  | nil => simp at hf
  | cons a rest ih =>
    rw [kill_cons]
    by_cases h : a.id = id
    · rw [List.find?_cons] at hf
      simp [h] at hf
      subst hf
      have hmem : id ∉ rest.map (fun x => x.id) := by
        have h2 := hd
        simp only [distinctIds, List.map_cons, List.nodup_cons] at h2
        rw [h] at h2
        exact h2.1
      refine ⟨by simp [h, hk], by simp [h, hk], by simp [h, hk], ?_⟩
      rw [getTaskById_eq_none_iff]
      intro x hx
      simp [h, hk] at hx
      intro hxid
      exact hmem (by simpa [hxid] using List.mem_map_of_mem (fun y => y.id) hx)
    · rw [List.find?_cons] at hf
      simp [h] at hf
      have hd' : distinctIds (⟨rest, n⟩ : RegState) := by
        have h2 := hd
        simp only [distinctIds, List.map_cons, List.nodup_cons] at h2
        exact h2.2
      obtain ⟨h1, h2, h3, h4⟩ := ih hd' hf
      rw [if_neg h]
      refine ⟨h1, h2, rfl, ?_⟩
      rw [getTaskById_eq_none_iff] at h4 ⊢
      intro x hx
      simp only [List.mem_cons] at hx
      rcases hx with rfl | hx
      · exact h
      · exact h4 x hx

lemma kill_idem (id : String) (s : RegState) (hd : distinctIds s) :
    (kill id (kill id s).state).state = (kill id s).state := by
  cases hf : s.tasks.find? (fun x => decide (x.id = id)) with
  | none =>
    have hnone : getTaskById s id = none := by simp [getTaskById, hf]
    rw [kill_absent id s hnone]
    rw [kill_absent id s hnone]
  | some e =>
    cases hk : e.task.killThrows with
    | true =>
      rw [kill_found_throw id s e hf hk]
      rw [kill_found_throw id s e hf hk]
    | false =>
      obtain ⟨-, -, -, h4⟩ := kill_found_ok id s e hd hf hk
      rw [kill_absent id _ h4]

lemma distinctIds_kill (id : String) (s : RegState) (hd : distinctIds s) :
    distinctIds (kill id s).state := by
  unfold kill
  split
  · exact hd
  · split
    · exact List.Nodup.sublist
        (List.Sublist.map (fun e => e.id) (List.eraseIdx_sublist s.tasks _)) hd
    · split
      · exact hd
      · exact List.Nodup.sublist
          (List.Sublist.map (fun e => e.id) (List.eraseIdx_sublist s.tasks _)) hd

lemma distinctIds_append_new (s : RegState) (id : String) (t : WTask) (m : Nat)
    (hd : distinctIds s) (h : getTaskById s id = none) :
    distinctIds (⟨s.tasks ++ [⟨id, t⟩], m⟩ : RegState) := by
  have hmem : id ∉ s.tasks.map (fun e => e.id) := by
    rw [getTaskById_eq_none_iff] at h
    intro hc
    obtain ⟨e, he, heid⟩ := List.mem_map.mp hc
    exact h e he heid
  simp only [distinctIds, List.map_append, List.map_cons, List.map_nil,
    List.nodup_append, List.disjoint_singleton]
  exact ⟨hd, List.nodup_singleton id, hmem⟩

lemma getTaskById_append_self (s : RegState) (id : String) (t : WTask) (m : Nat)
    (h : getTaskById s id = none) :
    getTaskById (⟨s.tasks ++ [⟨id, t⟩], m⟩ : RegState) id = some t := by
  have hf : s.tasks.find? (fun e => decide (e.id = id)) = none := by
    rw [List.find?_eq_none]
    intro e he
    have := (getTaskById_eq_none_iff s id).mp h e he
    simpa using this
  simp [getTaskById, List.find?_append, hf]

lemma distinctIds_build (s : RegState) (conv : Conversation) (hd : distinctIds s) :
    distinctIds (buildConversation s conv).2 := by
  unfold buildConversation
  cases hg : getTaskById s conv.id with
  | some t => exact hd
  | none =>
    cases conv.ctype with
    | acp => exact distinctIds_append_new s conv.id _ _ hd hg
    | codex => exact distinctIds_append_new s conv.id _ _ hd hg
    | other tag => exact hd

lemma addTask_present (id : String) (tnew : WTask) (s : RegState) (e : TaskEntry)
    (hf : s.tasks.find? (fun x => decide (x.id = id)) = some e) :
    (addTask id tnew s).1.tasks.map (fun x => x.id) = s.tasks.map (fun x => x.id) ∧
      (addTask id tnew s).1.nextId = s.nextId ∧
      getTaskById (addTask id tnew s).1 id = some tnew ∧
      (addTask id tnew s).2 = [] := by
  obtain ⟨tasks, n⟩ := s
  induction tasks with
  | nil => simp at hf
  | cons a rest ih =>
    rw [addTask_cons]
    by_cases h : a.id = id
    · refine ⟨by simp [h], by simp [h], ?_, by simp [h]⟩
      simp [h, getTaskById, List.find?_cons]
    · rw [List.find?_cons] at hf
      simp [h] at hf
      obtain ⟨h1, h2, h3, h4⟩ := ih hf
      rw [if_neg h]
      refine ⟨?_, rfl, ?_, rfl⟩
      · simpa using h1
      · rw [getTaskById] at h3 ⊢
        rw [List.find?_cons]
        simpa [h] using h3

lemma distinctIds_addTask (id : String) (t : WTask) (s : RegState) (hd : distinctIds s) :
    distinctIds (addTask id t s).1 := by
  unfold addTask
  cases hfind : s.tasks.findIdx? (fun e => decide (e.id = id)) with
  | none =>
    have h : getTaskById s id = none := by
      rw [getTaskById_eq_none_iff]
      intro e he
      have := (findIdx_none_iff _ _).mp hfind e he
      simpa using this
    exact distinctIds_append_new s id t s.nextId hd h
  | some i =>
    obtain ⟨e, helem, hpe⟩ := findIdx_some_prop _ s.tasks i hfind
    have heid : e.id = id := by simpa using hpe
    have hset : (s.tasks.set i ⟨id, t⟩).map (fun x => x.id) = s.tasks.map (fun x => x.id) := by
      rw [List.map_set]
      apply list_set_self
      rw [List.getElem?_map, helem]
      simp [heid]
    simpa [distinctIds, hset] using hd

lemma distinctIds_clear (s : RegState) (hd : distinctIds s) :
    distinctIds (clear s).state := by
  unfold clear
  by_cases h : s.tasks.any (fun e => e.task.killThrows)
  · simpa [h] using hd
  · simp [h, distinctIds]

lemma rollback_state (env : Env) (id : String) (s s2 : RegState) (ot : Option WTask)
    (h : getTaskByIdRollbackBuild env id s = Except.ok (ot, s2)) :
    s2 = s ∨ ∃ conv, (ot, s2) = buildConversation s conv := by
  unfold getTaskByIdRollbackBuild at h
  cases hg : getTaskById s id with
  | some t =>
    simp only [hg] at h
    rw [Except.ok.injEq] at h
    exact Or.inl (congrArg Prod.snd h).symm
  | none =>
    simp only [hg] at h
    rcases hdb : env.dbGetConversation id with ⟨succ, dat⟩
    rw [hdb] at h
    cases hh : env.chatHistory.bind
        (fun list => list.find? (fun item => decide (item.id = id))) with
    | some conversation =>
      rw [hh] at h
      cases succ <;> cases dat <;> simp only [] at h <;>
        (rw [Except.ok.injEq] at h
         exact Or.inr ⟨_, h.symm⟩)
    | none =>
      rw [hh] at h
      cases succ <;> cases dat <;> simp only [] at h <;>
        first
          | (rw [Except.ok.injEq] at h
             exact Or.inr ⟨_, h.symm⟩)
          | simp at h

lemma distinctIds_applyOp (op : RegOp) (s : RegState) (hd : distinctIds s) :
    distinctIds (applyOp op s) := by
  cases op with
  | build conv => exact distinctIds_build s conv hd
  | rollback env id =>
    simp only [applyOp]
    cases h : getTaskByIdRollbackBuild env id s with
    | ok pr =>
      obtain ⟨ot, s2⟩ := pr
      rcases rollback_state env id s s2 ot h with rfl | ⟨conv, hpr⟩
      · exact hd
      · have : s2 = (buildConversation s conv).2 := congrArg Prod.snd hpr
        rw [this]
        exact distinctIds_build s conv hd
    | error e => exact hd
  | add id task => exact distinctIds_addTask id task s hd
  | kill id => exact distinctIds_kill id s hd
  | clear => exact distinctIds_clear s hd

lemma distinctIds_foldl (ops : List RegOp) :
    ∀ s : RegState, distinctIds s →
      distinctIds (ops.foldl (fun s op => applyOp op s) s) := by
  induction ops with
  | nil => intro s hd; exact hd
  | cons op rest ih =>
    intro s hd
    exact ih (applyOp op s) (distinctIds_applyOp op s hd)

lemma insertByPriority_ne_nil (t : ToolDefinition) (l : List ToolDefinition) :
    insertByPriority t l ≠ [] := by
  cases l with
  | nil => simp [insertByPriority]
  | cons u rest =>
    rw [insertByPriority]
    split <;> simp

lemma sortByPriority_cons (a : ToolDefinition) (l : List ToolDefinition) :
    sortByPriority (a :: l) = insertByPriority a (sortByPriority l) := rfl

lemma sortByPriority_eq_nil_iff (l : List ToolDefinition) :
    sortByPriority l = [] ↔ l = [] := by
  cases l with
  | nil => simp [sortByPriority]
  | cons a rest =>
    rw [sortByPriority_cons]
    simp [insertByPriority_ne_nil]

lemma sortByPriority_head_min (l : List ToolDefinition) (t : ToolDefinition)
    (rest : List ToolDefinition) (h : sortByPriority l = t :: rest) :
    t ∈ l ∧ ∀ u ∈ l, t.priority ≤ u.priority := by
  induction l generalizing t rest with
  | nil => simp [sortByPriority] at h
  | cons a l2 ih =>
    rw [sortByPriority_cons] at h
    cases hs : sortByPriority l2 with
    | nil =>
      have hl2 : l2 = [] := (sortByPriority_eq_nil_iff l2).mp hs
      rw [hs] at h
      simp only [insertByPriority] at h
      injection h with h1 h2
      subst h1
      subst hl2
      simp
    | cons b rest2 =>
      obtain ⟨hbmem, hbmin⟩ := ih b rest2 hs
      rw [hs] at h
      rw [insertByPriority] at h
      by_cases hba : b.priority < a.priority
      · rw [if_pos hba] at h
        injection h with h1 h2
        subst h1
        refine ⟨List.mem_cons_of_mem a hbmem, ?_⟩
        intro u hu
        rcases List.mem_cons.mp hu with rfl | hu2
        · exact Nat.le_of_lt hba
        · exact hbmin u hu2
      · rw [if_neg hba] at h
        injection h with h1 h2
        subst h1
        refine ⟨List.mem_cons_self a l2, ?_⟩
        intro u hu
        rcases List.mem_cons.mp hu with rfl | hu2
        · exact Nat.le_refl _
        · exact Nat.le_trans (Nat.le_of_not_lt hba) (hbmin u hu2)

lemma find?_id_of_mem_nodup (l : List ToolDefinition) (t : ToolDefinition)
    (hnd : (l.map (fun x => x.id)).Nodup) (hmem : t ∈ l) :
    l.find? (fun x => decide (x.id = t.id)) = some t := by
  induction l with
  | nil => simp at hmem
  | cons a rest ih =>
    rw [List.find?_cons]
    simp only [List.map_cons, List.nodup_cons] at hnd
    rcases List.mem_cons.mp hmem with rfl | hmem2
    · simp
    · by_cases h : a.id = t.id
      · refine absurd ?_ hnd.1
        rw [h]
        exact List.mem_map_of_mem (fun x => x.id) hmem2
      · simp only [h, decide_eq_true_eq]
        exact ih hnd.2 hmem2

lemma mapGet_replace (l : List ToolDefinition) (t : ToolDefinition)
    (hex : ∃ x ∈ l, x.id = t.id) :
    mapGet (l.map (fun x => if x.id = t.id then t else x)) t.id = some t := by
  induction l with
  | nil =>
    obtain ⟨x, hx, -⟩ := hex
    simp at hx
  | cons a rest ih =>
    by_cases h : a.id = t.id
    · simp [mapGet, List.find?_cons, h]
    · obtain ⟨x, hx, hxid⟩ := hex
      rcases List.mem_cons.mp hx with rfl | hx2
      · exact absurd hxid h
      · rw [List.map_cons, if_neg h]
        rw [mapGet, List.find?_cons]
        simp only [h, decide_eq_true_eq]
        have hrec := ih ⟨x, hx2, hxid⟩
        simpa [mapGet] using hrec

lemma mapGet_mapSet_self (l : List ToolDefinition) (t : ToolDefinition) :
    mapGet (mapSet l t) t.id = some t := by
  unfold mapSet
  by_cases h : l.any (fun x => decide (x.id = t.id))
  · rw [if_pos h]
    apply mapGet_replace
    simpa using List.any_eq_true.mp h
  · rw [if_neg h]
    have hnone : l.find? (fun x => decide (x.id = t.id)) = none := by
      rw [List.find?_eq_none]
      intro x hx hc
      exact h (List.any_eq_true.mpr ⟨x, hx, hc⟩)
    simp [mapGet, List.find?_append, hnone]

lemma rollback_dbmiss (env : Env) (id : String) (s : RegState)
    (hm : getTaskById s id = none)
    (hdb : (env.dbGetConversation id).success = false ∨ (env.dbGetConversation id).data = none) :
    getTaskByIdRollbackBuild env id s =
      match env.chatHistory.bind (fun list => list.find? (fun item => decide (item.id = id))) with
      | some conversation => Except.ok (buildConversation s conversation)
      | none => Except.error "Conversation not found" := by
  rcases hdb with hs | hd0
  · cases hdat : (env.dbGetConversation id).data with
    | none => simp [getTaskByIdRollbackBuild, hm, hs, hdat]
    | some conv2 => simp [getTaskByIdRollbackBuild, hm, hs, hdat]
  · cases hsucc : (env.dbGetConversation id).success with
    | false => simp [getTaskByIdRollbackBuild, hm, hsucc, hd0]
    | true => simp [getTaskByIdRollbackBuild, hm, hsucc, hd0]

/-- C1: for every conversation id, `getTaskByIdRollbackBuild` returns the
in-memory task when one is present; otherwise a primary-store hit (record
with `success` and present `data`) is built without consulting the
secondary flat-history store (the result does not depend on it); on a
primary miss, a secondary-store hit is built; and when both stores miss,
the call rejects with the `Conversation not found` error. -/
theorem claim_C1_recovery (env : Env) (id : String) (s : RegState) :
    (∀ t : WTask, getTaskById s id = some t →
      getTaskByIdRollbackBuild env id s = Except.ok (some t, s)) ∧
    (getTaskById s id = none →
      ∀ conv : Conversation, (env.dbGetConversation id).success = true →
        (env.dbGetConversation id).data = some conv →
          getTaskByIdRollbackBuild env id s = Except.ok (buildConversation s conv) ∧
          ∀ hist2 : Option (List Conversation),
            getTaskByIdRollbackBuild ⟨env.dbGetConversation, hist2⟩ id s =
              getTaskByIdRollbackBuild env id s) ∧
    (getTaskById s id = none →
      ((env.dbGetConversation id).success = false ∨ (env.dbGetConversation id).data = none) →
        ∀ conv : Conversation,
          env.chatHistory.bind (fun list => list.find? (fun item => decide (item.id = id))) =
              some conv →
            getTaskByIdRollbackBuild env id s = Except.ok (buildConversation s conv)) ∧
    (getTaskById s id = none →
      ((env.dbGetConversation id).success = false ∨ (env.dbGetConversation id).data = none) →
        env.chatHistory.bind (fun list => list.find? (fun item => decide (item.id = id))) = none →
          getTaskByIdRollbackBuild env id s = Except.error "Conversation not found") := by
  refine ⟨?_, ?_, ?_, ?_⟩
  · intro t ht
    simp [getTaskByIdRollbackBuild, ht]
  · intro hm conv hs hd2
    refine ⟨by simp [getTaskByIdRollbackBuild, hm, hs, hd2], ?_⟩
    intro hist2
    simp [getTaskByIdRollbackBuild, hm, hs, hd2]
  · intro hm hdb conv hh
    rw [rollback_dbmiss env id s hm hdb, hh]
  · intro hm hdb hh
    rw [rollback_dbmiss env id s hm hdb, hh]

/-- C1 witness: a primary-store hit for id `y` on the empty registry,
with a conflicting secondary record present, builds from the primary
record; and with both stores empty the call rejects with the
`Conversation not found` error. -/
theorem claim_C1_recovery_witness :
    getTaskByIdRollbackBuild
        ⟨fun _ => ⟨true, some ⟨"y", ConvType.acp⟩⟩, some [⟨"y", ConvType.codex⟩]⟩ "y" emptyReg =
      Except.ok (buildConversation emptyReg ⟨"y", ConvType.acp⟩) ∧
    getTaskByIdRollbackBuild ⟨fun _ => ⟨false, none⟩, none⟩ "y" emptyReg =
      Except.error "Conversation not found" := by
  constructor
  · exact ((claim_C1_recovery
      ⟨fun _ => ⟨true, some ⟨"y", ConvType.acp⟩⟩, some [⟨"y", ConvType.codex⟩]⟩ "y"
      emptyReg).2.1 rfl ⟨"y", ConvType.acp⟩ rfl rfl).1
  · exact (claim_C1_recovery ⟨fun _ => ⟨false, none⟩, none⟩ "y"
      emptyReg).2.2.2 rfl (Or.inl rfl) rfl

/-- C2: starting from the empty registry, every finite sequence of
registry operations leaves at most one entry per conversation id, and
`buildConversation` on an id that is already present returns the cached
task without constructing or inserting anything. -/
theorem claim_C2_unique_ids :
    (∀ ops : List RegOp, distinctIds (runOps ops)) ∧
    (∀ (s : RegState) (conv : Conversation) (t : WTask),
      getTaskById s conv.id = some t → buildConversation s conv = (some t, s)) := by
  constructor
  · intro ops
    exact distinctIds_foldl ops emptyReg (by simp [distinctIds, emptyReg])
  · intro s conv t h
    simp [buildConversation, h]

/-- C2 witness: a concrete operation sequence keeps ids distinct, and a
build for an id already present returns the cached task unchanged. -/
theorem claim_C2_unique_ids_witness :
    distinctIds (runOps [RegOp.build ⟨"a", ConvType.acp⟩, RegOp.add "b" ⟨7, "acp", false⟩,
      RegOp.kill "a", RegOp.build ⟨"b", ConvType.codex⟩, RegOp.clear]) ∧
    buildConversation ⟨[⟨"a", ⟨0, "acp", false⟩⟩], 1⟩ ⟨"a", ConvType.codex⟩ =
      (some ⟨0, "acp", false⟩, ⟨[⟨"a", ⟨0, "acp", false⟩⟩], 1⟩) :=
  ⟨claim_C2_unique_ids.1 _, claim_C2_unique_ids.2 _ _ _ rfl⟩

/-- C3 counterexample: with one stored task whose `kill()` throws,
`kill` propagates the exception and leaves the entry in place
(the splice after `task.task.kill()` is never reached), and `clear`
likewise propagates and removes nothing — refuting the claim that kill
and clear never throw and remove entries unconditionally. -/
theorem claim_C3_teardown_cex :
    (kill "x" ⟨[⟨"x", ⟨0, "acp", true⟩⟩], 1⟩).threw = true ∧
    (kill "x" ⟨[⟨"x", ⟨0, "acp", true⟩⟩], 1⟩).state =
      (⟨[⟨"x", ⟨0, "acp", true⟩⟩], 1⟩ : RegState) ∧
    (clear ⟨[⟨"x", ⟨0, "acp", true⟩⟩], 1⟩).threw = true ∧
    (clear ⟨[⟨"x", ⟨0, "acp", true⟩⟩], 1⟩).state =
      (⟨[⟨"x", ⟨0, "acp", true⟩⟩], 1⟩ : RegState) := by
  decide

/-- C3 (amended): `kill(id)` on a present id signals the stored task's
`kill()` and, when that call returns normally, removes the entry without
throwing; when the task's `kill()` throws, the exception propagates and
the entry remains.  `clear()` empties the registry without throwing when
no stored task's `kill()` throws; when one throws, `clear` propagates and
removes no entries. -/
theorem claim_C3_teardown (id : String) (s : RegState) (e : TaskEntry)
    (hd : distinctIds s) :
    (s.tasks.find? (fun x => decide (x.id = id)) = some e →
      (e.task.killThrows = false →
        (kill id s).threw = false ∧ (kill id s).signaled = [e.task.tid] ∧
          getTaskById (kill id s).state id = none) ∧
      (e.task.killThrows = true → kill id s = ⟨s, true, [e.task.tid]⟩)) ∧
    ((∀ x ∈ s.tasks, x.task.killThrows = false) →
      (clear s).threw = false ∧ (clear s).state.tasks = []) ∧
    ((∃ x ∈ s.tasks, x.task.killThrows = true) →
      (clear s).threw = true ∧ (clear s).state = s) := by
  refine ⟨?_, ?_, ?_⟩
  · intro hf
    constructor
    · intro hk
      obtain ⟨h1, h2, -, h4⟩ := kill_found_ok id s e hd hf hk
      exact ⟨h1, h2, h4⟩
    · intro hk
      exact kill_found_throw id s e hf hk
  · intro hall
    have hany : s.tasks.any (fun x => x.task.killThrows) = false := by
      rw [List.any_eq_false]
      intro x hx
      simp [hall x hx]
    simp [clear, hany]
  · rintro ⟨x, hx, hxk⟩
    have hany : s.tasks.any (fun x => x.task.killThrows) = true :=
      List.any_eq_true.mpr ⟨x, hx, hxk⟩
    simp [clear, hany]

/-- C3 witness: a non-throwing stored task is signaled and its entry is
removed without an exception. -/
theorem claim_C3_teardown_witness :
    (kill "x" ⟨[⟨"x", ⟨0, "acp", false⟩⟩], 1⟩).threw = false ∧
    (kill "x" ⟨[⟨"x", ⟨0, "acp", false⟩⟩], 1⟩).signaled = [0] ∧
    getTaskById (kill "x" ⟨[⟨"x", ⟨0, "acp", false⟩⟩], 1⟩).state "x" = none :=
  ((claim_C3_teardown "x" ⟨[⟨"x", ⟨0, "acp", false⟩⟩], 1⟩ ⟨"x", ⟨0, "acp", false⟩⟩
    (by simp [distinctIds])).1 (by decide)).1 rfl

/-- C7: on a cache miss, a supported conversation type constructs exactly
one task and appends exactly one entry; every later build call with the
same id returns that identical task with the state unchanged; after
`kill(id)` the entry is gone; and an unsupported type yields no task and
leaves the state unchanged, without failing. -/
theorem claim_C7_getOrCreate (s : RegState) (conv : Conversation)
    (h : getTaskById s conv.id = none) :
    ((builtTask s conv.ctype).isSome = supportedType conv.ctype) ∧
    (∀ t : WTask, builtTask s conv.ctype = some t →
      buildConversation s conv = (some t, ⟨s.tasks ++ [⟨conv.id, t⟩], s.nextId + 1⟩) ∧
      getTaskById (⟨s.tasks ++ [⟨conv.id, t⟩], s.nextId + 1⟩ : RegState) conv.id = some t ∧
      (∀ conv2 : Conversation, conv2.id = conv.id →
        buildConversation (⟨s.tasks ++ [⟨conv.id, t⟩], s.nextId + 1⟩ : RegState) conv2 =
          (some t, ⟨s.tasks ++ [⟨conv.id, t⟩], s.nextId + 1⟩)) ∧
      (distinctIds s →
        getTaskById
            (kill conv.id (⟨s.tasks ++ [⟨conv.id, t⟩], s.nextId + 1⟩ : RegState)).state
            conv.id = none)) ∧
    (builtTask s conv.ctype = none → buildConversation s conv = (none, s)) := by
  have hfnone : s.tasks.find? (fun x => decide (x.id = conv.id)) = none := by
    rw [List.find?_eq_none]
    intro x hx
    have := (getTaskById_eq_none_iff s conv.id).mp h x hx
    simpa using this
  refine ⟨by cases conv.ctype <;> simp [builtTask, supportedType], ?_, ?_⟩
  · intro t ht
    have hbuild : buildConversation s conv = (some t, ⟨s.tasks ++ [⟨conv.id, t⟩], s.nextId + 1⟩) := by
      cases hc : conv.ctype with
      | acp =>
        rw [hc] at ht
        simp only [builtTask, Option.some.injEq] at ht
        subst ht
        simp [buildConversation, h, hc]
      | codex =>
        rw [hc] at ht
        simp only [builtTask, Option.some.injEq] at ht
        subst ht
        simp [buildConversation, h, hc]
      | other tag =>
        rw [hc] at ht
        simp [builtTask] at ht
    have hcached : getTaskById (⟨s.tasks ++ [⟨conv.id, t⟩], s.nextId + 1⟩ : RegState) conv.id =
        some t := getTaskById_append_self s conv.id t (s.nextId + 1) h
    refine ⟨hbuild, hcached, ?_, ?_⟩
    · intro conv2 h2
      have hcached2 : getTaskById (⟨s.tasks ++ [⟨conv.id, t⟩], s.nextId + 1⟩ : RegState)
          conv2.id = some t := by
        rw [h2]
        exact hcached
      simp [buildConversation, hcached2]
    · intro hd
      have hd' := distinctIds_append_new s conv.id t (s.nextId + 1) hd h
      have hkfalse : (builtTask s conv.ctype).all (fun x => !x.killThrows) = true := by
        cases conv.ctype <;> simp [builtTask]
      have htk : t.killThrows = false := by
        rw [ht] at hkfalse
        simpa using hkfalse
      have hf2 : (s.tasks ++ [(⟨conv.id, t⟩ : TaskEntry)]).find?
          (fun x => decide (x.id = conv.id)) = some (⟨conv.id, t⟩ : TaskEntry) := by
        simp [List.find?_append, hfnone]
      obtain ⟨-, -, -, h4⟩ :=
        kill_found_ok conv.id ⟨s.tasks ++ [⟨conv.id, t⟩], s.nextId + 1⟩ ⟨conv.id, t⟩ hd' hf2 htk
      exact h4
  · intro ht
    cases hc : conv.ctype with
    | acp => rw [hc] at ht; simp [builtTask] at ht
    | codex => rw [hc] at ht; simp [builtTask] at ht
    | other tag => simp [buildConversation, h, hc]

/-- C7 witness: building conversation `c1` of type `acp` on the empty
registry constructs one task and caches it; a repeated build returns the
identical task; and an unknown type yields no task. -/
theorem claim_C7_getOrCreate_witness :
    buildConversation emptyReg ⟨"c1", ConvType.acp⟩ =
      (some ⟨0, "acp", false⟩, ⟨[⟨"c1", ⟨0, "acp", false⟩⟩], 1⟩) ∧
    buildConversation ⟨[⟨"c1", ⟨0, "acp", false⟩⟩], 1⟩ ⟨"c1", ConvType.codex⟩ =
      (some ⟨0, "acp", false⟩, ⟨[⟨"c1", ⟨0, "acp", false⟩⟩], 1⟩) ∧
    buildConversation emptyReg ⟨"c2", ConvType.other "gemini"⟩ = (none, emptyReg) := by
  obtain ⟨-, hmain, hunsup⟩ := claim_C7_getOrCreate emptyReg ⟨"c1", ConvType.acp⟩ rfl
  obtain ⟨h1, -, h3, -⟩ := hmain ⟨0, "acp", false⟩ rfl
  refine ⟨h1, h3 ⟨"c1", ConvType.codex⟩ rfl, ?_⟩
  exact (claim_C7_getOrCreate emptyReg ⟨"c2", ConvType.other "gemini"⟩ rfl).2.2 rfl

/-- C9: `kill` is total and idempotent: on an id with no entry it returns
without error and leaves the state unchanged; applying `kill` to its own
resulting state changes nothing; and when no stored task's `kill()`
throws, one call leaves the entry absent with no error and the repeated
call also reports no error. -/
theorem claim_C9_kill_idempotent (id : String) (s : RegState) (hd : distinctIds s) :
    (getTaskById s id = none → kill id s = ⟨s, false, []⟩) ∧
    (kill id (kill id s).state).state = (kill id s).state ∧
    ((∀ x ∈ s.tasks, x.task.killThrows = false) →
      (kill id s).threw = false ∧ getTaskById (kill id s).state id = none ∧
        (kill id (kill id s).state).threw = false) := by
  refine ⟨fun h => kill_absent id s h, kill_idem id s hd, ?_⟩
  intro hall
  cases hf : s.tasks.find? (fun x => decide (x.id = id)) with
  | none =>
    have hnone : getTaskById s id = none := by simp [getTaskById, hf]
    rw [kill_absent id s hnone]
    exact ⟨rfl, hnone, by rw [kill_absent id s hnone]⟩
  | some e =>
    have hmem := List.mem_of_find?_eq_some hf
    have hk := hall e hmem
    obtain ⟨h1, -, -, h4⟩ := kill_found_ok id s e hd hf hk
    refine ⟨h1, h4, ?_⟩
    rw [kill_absent id _ h4]

/-- C9 witness: killing a nonexistent id is a no-op on the empty
registry, and killing the same present id twice yields the same state as
killing it once. -/
theorem claim_C9_kill_idempotent_witness :
    kill "z" emptyReg = ⟨emptyReg, false, []⟩ ∧
    (kill "a" (kill "a" (⟨[⟨"a", ⟨0, "acp", false⟩⟩], 1⟩ : RegState)).state).state =
      (kill "a" (⟨[⟨"a", ⟨0, "acp", false⟩⟩], 1⟩ : RegState)).state := by
  constructor
  · exact (claim_C9_kill_idempotent "z" emptyReg (by simp [distinctIds, emptyReg])).1 rfl
  · exact (claim_C9_kill_idempotent "a" ⟨[⟨"a", ⟨0, "acp", false⟩⟩], 1⟩
      (by simp [distinctIds])).2.1

/-- C10: `addTask` on an id that is already present replaces the stored
task in place: the length and the id sequence of the registry are
unchanged, the lookup now yields the new task, and no `kill()` is
invoked on the displaced task. -/
theorem claim_C10_addTask_replace (s : RegState) (id : String) (tnew : WTask)
    (h : ∃ e ∈ s.tasks, e.id = id) :
    (addTask id tnew s).1.tasks.length = s.tasks.length ∧
    (addTask id tnew s).1.tasks.map (fun x => x.id) = s.tasks.map (fun x => x.id) ∧
    getTaskById (addTask id tnew s).1 id = some tnew ∧
    (addTask id tnew s).2 = [] := by
  obtain ⟨e0, he0, hid0⟩ := h
  have hne : s.tasks.find? (fun x => decide (x.id = id)) ≠ none := by
    intro hc
    rw [List.find?_eq_none] at hc
    exact hc e0 he0 (by simp [hid0])
  obtain ⟨e, hf⟩ := Option.ne_none_iff_exists'.mp hne
  obtain ⟨h1, h2, h3, h4⟩ := addTask_present id tnew s e hf
  refine ⟨?_, h1, h3, h4⟩
  have hlen := congrArg List.length h1
  simpa using hlen

/-- C10 witness: replacing the task of id `a` in a two-entry registry
keeps both entries and their order and serves the new task. -/
theorem claim_C10_addTask_replace_witness :
    (addTask "a" ⟨5, "codex", false⟩
        (⟨[⟨"a", ⟨0, "acp", false⟩⟩, ⟨"b", ⟨1, "acp", false⟩⟩], 2⟩ : RegState)).1.tasks.length = 2 ∧
    getTaskById (addTask "a" ⟨5, "codex", false⟩
        (⟨[⟨"a", ⟨0, "acp", false⟩⟩, ⟨"b", ⟨1, "acp", false⟩⟩], 2⟩ : RegState)).1 "a" =
      some ⟨5, "codex", false⟩ := by
  have h := claim_C10_addTask_replace
    ⟨[⟨"a", ⟨0, "acp", false⟩⟩, ⟨"b", ⟨1, "acp", false⟩⟩], 2⟩ "a" ⟨5, "codex", false⟩
    ⟨⟨"a", ⟨0, "acp", false⟩⟩, by simp, rfl⟩
  exact ⟨h.1, h.2.2.1⟩

lemma inferCategory_eq (info : McpToolInfo) :
    inferCategory info =
      if mcpSearchCond info then ToolCategory.SEARCH
      else if mcpFileCond info then ToolCategory.FILE_OPS
      else if mcpExecCond info then ToolCategory.EXECUTION
      else if mcpAnalysisCond info then ToolCategory.ANALYSIS
      else if mcpCommCond info then ToolCategory.COMMUNICATION
      else ToolCategory.CUSTOM := rfl

/-- C4: for every non-MCP event type, resolution returns a minimum-priority
member of the platform-filtered candidate pipeline when one survives; with
two available candidates of priorities 10 and 20 it returns the
priority-10 one; and when no candidate survives it returns the terminal
`unknown` descriptor (priority 999, no capability flags set). -/
theorem claim_C4_resolution (reg : ToolRegistry) (platform : String)
    (et : CodexAgentEventType) (d : Option McpEventData)
    (hmcp : isMcpToolEvent et = false) :
    (survivorsFor reg platform et = [] →
      resolveToolForEvent reg platform et d = getDefaultTool et) ∧
    (survivorsFor reg platform et ≠ [] →
      resolveToolForEvent reg platform et d ∈ survivorsFor reg platform et ∧
        ∀ u ∈ survivorsFor reg platform et,
          (resolveToolForEvent reg platform et d).priority ≤ u.priority) ∧
    ((getDefaultTool et).id = "unknown" ∧ (getDefaultTool et).priority = 999 ∧
      (getDefaultTool et).capabilities.supportsStreaming = false ∧
      (getDefaultTool et).capabilities.supportsImages = false ∧
      (getDefaultTool et).capabilities.supportsCharts = false ∧
      (getDefaultTool et).capabilities.supportsMarkdown = false ∧
      (getDefaultTool et).capabilities.supportsInteraction = false) ∧
    (∀ t1 t2 : ToolDefinition, survivorsFor reg platform et = [t1, t2] →
      (t1.priority = 10 → t2.priority = 20 → resolveToolForEvent reg platform et d = t1) ∧
      (t1.priority = 20 → t2.priority = 10 → resolveToolForEvent reg platform et d = t2)) := by
  have hres : resolveToolForEvent reg platform et d =
      match availableToolsFor reg platform et with
      | t :: _ => t
      | [] => getDefaultTool et := by
    simp [resolveToolForEvent, hmcp]
  have hkey : survivorsFor reg platform et ≠ [] →
      resolveToolForEvent reg platform et d ∈ survivorsFor reg platform et ∧
        ∀ u ∈ survivorsFor reg platform et,
          (resolveToolForEvent reg platform et d).priority ≤ u.priority := by
    intro hne
    cases hs : availableToolsFor reg platform et with
    | nil =>
      exact absurd ((sortByPriority_eq_nil_iff _).mp hs) hne
    | cons t rest =>
      have hmin := sortByPriority_head_min (survivorsFor reg platform et) t rest hs
      have hr : resolveToolForEvent reg platform et d = t := by rw [hres, hs]
      rw [hr]
      exact hmin
  refine ⟨?_, hkey, ⟨rfl, rfl, rfl, rfl, rfl, rfl, rfl⟩, ?_⟩
  · intro hnil
    rw [hres, availableToolsFor, hnil]
    rfl
  · intro t1 t2 hsurv
    have hne : survivorsFor reg platform et ≠ [] := by
      rw [hsurv]
      simp
    obtain ⟨hmem, hmin⟩ := hkey hne
    rw [hsurv] at hmem hmin
    constructor
    · intro h10 h20
      rcases List.mem_cons.mp hmem with h | h
      · exact h
      · exfalso
        simp only [List.mem_singleton] at h
        have hle := hmin t1 (by simp)
        rw [h, h20, h10] at hle
        omega
    · intro h20 h10
      rcases List.mem_cons.mp hmem with h | h
      · exfalso
        have hle := hmin t2 (by simp)
        rw [h, h20, h10] at hle
        omega
      · simpa using h

/-- C4 witness: with candidates of priorities 10 (`shell_exec`) and 20
(`file_operations`) both available, resolution returns `shell_exec`; and
on a platform where no candidate survives, resolution returns the
`unknown` descriptor. -/
theorem claim_C4_resolution_witness :
    resolveToolForEvent regTwoCandidates "darwin" CodexAgentEventType.EXEC_COMMAND_BEGIN none =
      shellExecTool ∧
    resolveToolForEvent initialRegistry "sunos" CodexAgentEventType.EXEC_COMMAND_BEGIN none =
      getDefaultTool CodexAgentEventType.EXEC_COMMAND_BEGIN := by
  constructor
  · exact ((claim_C4_resolution regTwoCandidates "darwin"
      CodexAgentEventType.EXEC_COMMAND_BEGIN none rfl).2.2.2 shellExecTool fileOperationsTool
      (by decide)).1 rfl rfl
  · exact (claim_C4_resolution initialRegistry "sunos"
      CodexAgentEventType.EXEC_COMMAND_BEGIN none rfl).1 (by decide)

/-- C5: for an MCP tool-call begin/end event whose invocation carries a
non-empty method (or name) `m`, when a registered MCP descriptor has an
id ending with `/m` or a name equal to `m`, resolution returns the first
such descriptor; in particular, after registering
`{serverName: docs, name: search_docs}`, an MCP event with method
`search_docs` resolves to the descriptor with id `docs/search_docs`. -/
theorem claim_C5_mcp_match :
    (∀ (reg : ToolRegistry) (platform : String) (et : CodexAgentEventType)
        (d : Option McpEventData) (inv : McpInvocation) (m : String) (t : ToolDefinition),
      (et = CodexAgentEventType.MCP_TOOL_CALL_BEGIN ∨
          et = CodexAgentEventType.MCP_TOOL_CALL_END) →
      d.bind (fun x => x.invocation) = some inv →
      extractMethodFromInvocation inv = m → m ≠ "" →
      (reg.mcpTools.map (fun x => x.id)).Nodup →
      reg.mcpTools.find? (fun x => strEndsWith x.id ("/" ++ m) || decide (x.name = m)) = some t →
        resolveToolForEvent reg platform et d = t) ∧
    (∀ platform : String,
      (resolveToolForEvent (registerMcpTool initialRegistry ⟨"docs", "search_docs", none, none⟩)
          platform CodexAgentEventType.MCP_TOOL_CALL_BEGIN
          (some ⟨some ⟨some "search_docs", none⟩⟩)).id = "docs/search_docs") := by
  have hgen : ∀ (reg : ToolRegistry) (platform : String) (et : CodexAgentEventType)
      (d : Option McpEventData) (inv : McpInvocation) (m : String) (t : ToolDefinition),
      (et = CodexAgentEventType.MCP_TOOL_CALL_BEGIN ∨
          et = CodexAgentEventType.MCP_TOOL_CALL_END) →
      d.bind (fun x => x.invocation) = some inv →
      extractMethodFromInvocation inv = m → m ≠ "" →
      (reg.mcpTools.map (fun x => x.id)).Nodup →
      reg.mcpTools.find? (fun x => strEndsWith x.id ("/" ++ m) || decide (x.name = m)) = some t →
        resolveToolForEvent reg platform et d = t := by
    intro reg platform et d inv m t hev hinv hm hm0 hnd hf
    have hmcp : isMcpToolEvent et = true := by rcases hev with rfl | rfl <;> rfl
    have hmemt : t ∈ reg.mcpTools := List.mem_of_find?_eq_some hf
    have hid : inferMcpToolId reg inv = t.id := by
      simp [inferMcpToolId, hm, hm0, hf]
    have hget : mapGet reg.mcpTools t.id = some t := by
      unfold mapGet
      exact find?_id_of_mem_nodup reg.mcpTools t hnd hmemt
    simp [resolveToolForEvent, hmcp, hinv, hid, hget]
  refine ⟨hgen, ?_⟩
  intro platform
  have h := hgen (registerMcpTool initialRegistry ⟨"docs", "search_docs", none, none⟩) platform
    CodexAgentEventType.MCP_TOOL_CALL_BEGIN (some ⟨some ⟨some "search_docs", none⟩⟩)
    ⟨some "search_docs", none⟩ "search_docs"
    (adaptMcpTool ⟨"docs", "search_docs", none, none⟩)
    (Or.inl rfl) rfl rfl (by decide) (by decide) (by decide)
  rw [h]
  decide

/-- C5 witness: registering MCP tool `docs/search_docs` and resolving an
MCP begin event with method `search_docs` yields that adapted
descriptor. -/
theorem claim_C5_mcp_match_witness :
    resolveToolForEvent (registerMcpTool initialRegistry ⟨"docs", "search_docs", none, none⟩)
        "linux" CodexAgentEventType.MCP_TOOL_CALL_BEGIN
        (some ⟨some ⟨some "search_docs", none⟩⟩) =
      adaptMcpTool ⟨"docs", "search_docs", none, none⟩ :=
  claim_C5_mcp_match.1 (registerMcpTool initialRegistry ⟨"docs", "search_docs", none, none⟩)
    "linux" CodexAgentEventType.MCP_TOOL_CALL_BEGIN (some ⟨some ⟨some "search_docs", none⟩⟩)
    ⟨some "search_docs", none⟩ "search_docs" (adaptMcpTool ⟨"docs", "search_docs", none, none⟩)
    (Or.inl rfl) rfl rfl (by decide) (by decide) (by decide)

/-- C6: for an MCP tool-call begin/end event whose non-empty method `m`
matches no registered MCP descriptor, resolution returns the synthesized
generic descriptor: id `generic_mcp_` ++ m, name m, priority 200, marked
experimental, with the images, charts and markdown capability flags set —
resolution of an unseen MCP tool never fails. -/
theorem claim_C6_generic_fallback :
    (∀ (reg : ToolRegistry) (platform : String) (et : CodexAgentEventType)
        (d : Option McpEventData) (inv : McpInvocation) (m : String),
      (et = CodexAgentEventType.MCP_TOOL_CALL_BEGIN ∨
          et = CodexAgentEventType.MCP_TOOL_CALL_END) →
      d.bind (fun x => x.invocation) = some inv →
      extractMethodFromInvocation inv = m → m ≠ "" →
      (∀ t ∈ reg.mcpTools, strEndsWith t.id ("/" ++ m) = false ∧ t.name ≠ m) →
      (∀ t ∈ reg.mcpTools, t.id ≠ "") →
        resolveToolForEvent reg platform et d = createGenericMcpTool (some inv) ∧
        (resolveToolForEvent reg platform et d).id = "generic_mcp_" ++ m ∧
        (resolveToolForEvent reg platform et d).name = m ∧
        (resolveToolForEvent reg platform et d).priority = 200 ∧
        (resolveToolForEvent reg platform et d).availability.experimental = some true ∧
        (resolveToolForEvent reg platform et d).capabilities.supportsImages = true ∧
        (resolveToolForEvent reg platform et d).capabilities.supportsCharts = true ∧
        (resolveToolForEvent reg platform et d).capabilities.supportsMarkdown = true) ∧
    (∀ platform : String,
      (resolveToolForEvent initialRegistry platform CodexAgentEventType.MCP_TOOL_CALL_BEGIN
          (some ⟨some ⟨some "frobnicate", none⟩⟩)).id = "generic_mcp_frobnicate" ∧
      (resolveToolForEvent initialRegistry platform CodexAgentEventType.MCP_TOOL_CALL_BEGIN
          (some ⟨some ⟨some "frobnicate", none⟩⟩)).name = "frobnicate") := by
  have hgen : ∀ (reg : ToolRegistry) (platform : String) (et : CodexAgentEventType)
      (d : Option McpEventData) (inv : McpInvocation) (m : String),
      (et = CodexAgentEventType.MCP_TOOL_CALL_BEGIN ∨
          et = CodexAgentEventType.MCP_TOOL_CALL_END) →
      d.bind (fun x => x.invocation) = some inv →
      extractMethodFromInvocation inv = m → m ≠ "" →
      (∀ t ∈ reg.mcpTools, strEndsWith t.id ("/" ++ m) = false ∧ t.name ≠ m) →
      (∀ t ∈ reg.mcpTools, t.id ≠ "") →
        resolveToolForEvent reg platform et d = createGenericMcpTool (some inv) ∧
        (resolveToolForEvent reg platform et d).id = "generic_mcp_" ++ m ∧
        (resolveToolForEvent reg platform et d).name = m ∧
        (resolveToolForEvent reg platform et d).priority = 200 ∧
        (resolveToolForEvent reg platform et d).availability.experimental = some true ∧
        (resolveToolForEvent reg platform et d).capabilities.supportsImages = true ∧
        (resolveToolForEvent reg platform et d).capabilities.supportsCharts = true ∧
        (resolveToolForEvent reg platform et d).capabilities.supportsMarkdown = true := by
    intro reg platform et d inv m hev hinv hm hm0 hno hids
    have hmcp : isMcpToolEvent et = true := by rcases hev with rfl | rfl <;> rfl
    have hfnone : reg.mcpTools.find?
        (fun x => strEndsWith x.id ("/" ++ m) || decide (x.name = m)) = none := by
      rw [List.find?_eq_none]
      intro x hx
      obtain ⟨h1, h2⟩ := hno x hx
      simp [h1, h2]
    have hid : inferMcpToolId reg inv = "" := by
      simp [inferMcpToolId, hm, hm0, hfnone]
    have hget : mapGet reg.mcpTools "" = none := by
      rw [mapGet, List.find?_eq_none]
      intro x hx
      simpa using hids x hx
    have hres : resolveToolForEvent reg platform et d = createGenericMcpTool (some inv) := by
      simp [resolveToolForEvent, hmcp, hinv, hid, hget]
    rw [hres]
    refine ⟨rfl, ?_, ?_, rfl, rfl, rfl, rfl, rfl⟩
    · simp [createGenericMcpTool, hm, hm0]
    · simp [createGenericMcpTool, hm, hm0]
  refine ⟨hgen, ?_⟩
  intro platform
  have h := hgen initialRegistry platform CodexAgentEventType.MCP_TOOL_CALL_BEGIN
    (some ⟨some ⟨some "frobnicate", none⟩⟩) ⟨some "frobnicate", none⟩ "frobnicate"
    (Or.inl rfl) rfl rfl (by decide) (by decide) (by decide)
  exact ⟨h.2.1, h.2.2.1⟩

/-- C6 witness: an MCP end event whose invocation only carries the `name`
field `frobnicate`, with no matching registered descriptor, resolves to
the synthesized generic descriptor. -/
theorem claim_C6_generic_fallback_witness :
    resolveToolForEvent initialRegistry "darwin" CodexAgentEventType.MCP_TOOL_CALL_END
        (some ⟨some ⟨none, some "frobnicate"⟩⟩) =
      createGenericMcpTool (some ⟨none, some "frobnicate"⟩) :=
  (claim_C6_generic_fallback.1 initialRegistry "darwin" CodexAgentEventType.MCP_TOOL_CALL_END
    (some ⟨some ⟨none, some "frobnicate"⟩⟩) ⟨none, some "frobnicate"⟩ "frobnicate"
    (Or.inr rfl) rfl rfl (by decide) (by decide) (by decide)).1

/-- C8 counterexample: a tool whose description (but not name) contains
`find` is categorized `CUSTOM`, not `SEARCH` — the description is only
consulted for the keyword `search`, refuting the claim that the
name/description heuristics treat `find` and `query` alike for the
description. -/
theorem claim_C8_category_cex :
    strContains (strToLower "find anything") "find" = true ∧
    inferCategory ⟨"s", "tool", some "find anything", none⟩ = ToolCategory.CUSTOM ∧
    inferCategory ⟨"s", "tool", some "find anything", none⟩ ≠ ToolCategory.SEARCH := by
  decide

/-- C8 (amended): `registerMcpTool` stores a descriptor keyed
`{serverName}/{name}` with priority 100, numerically above every builtin
priority; its category follows the sequential substring heuristics where
the branch keywords are matched against the lowercased name only, except
that a description containing `search` also selects Search. -/
theorem claim_C8_adaptMcpTool (reg : ToolRegistry) (info : McpToolInfo) :
    (adaptMcpTool info).id = info.serverName ++ "/" ++ info.name ∧
    mapGet (registerMcpTool reg info).mcpTools (info.serverName ++ "/" ++ info.name) =
      some (adaptMcpTool info) ∧
    (adaptMcpTool info).priority = 100 ∧
    (∀ b ∈ initialRegistry.tools, b.priority < (adaptMcpTool info).priority) ∧
    (mcpSearchCond info = true → (adaptMcpTool info).category = ToolCategory.SEARCH) ∧
    (mcpSearchCond info = false → mcpFileCond info = true →
      (adaptMcpTool info).category = ToolCategory.FILE_OPS) ∧
    (mcpSearchCond info = false → mcpFileCond info = false → mcpExecCond info = true →
      (adaptMcpTool info).category = ToolCategory.EXECUTION) ∧
    (mcpSearchCond info = false → mcpFileCond info = false → mcpExecCond info = false →
      mcpAnalysisCond info = true →
      (adaptMcpTool info).category = ToolCategory.ANALYSIS) ∧
    (mcpSearchCond info = false → mcpFileCond info = false → mcpExecCond info = false →
      mcpAnalysisCond info = false → mcpCommCond info = true →
      (adaptMcpTool info).category = ToolCategory.COMMUNICATION) ∧
    (mcpSearchCond info = false → mcpFileCond info = false → mcpExecCond info = false →
      mcpAnalysisCond info = false → mcpCommCond info = false →
      (adaptMcpTool info).category = ToolCategory.CUSTOM) := by
  have hcat : (adaptMcpTool info).category = inferCategory info := rfl
  have hkey : (adaptMcpTool info).id = info.serverName ++ "/" ++ info.name := rfl
  refine ⟨hkey, ?_, rfl, ?_, ?_, ?_, ?_, ?_, ?_, ?_⟩
  · have h := mapGet_mapSet_self reg.mcpTools (adaptMcpTool info)
    rw [hkey] at h
    exact h
  · exact (by decide : ∀ b ∈ initialRegistry.tools, b.priority < 100)
  · intro h1
    rw [hcat, inferCategory_eq, if_pos h1]
  · intro h1 h2
    rw [hcat, inferCategory_eq, if_neg (by simp [h1]), if_pos h2]
  · intro h1 h2 h3
    rw [hcat, inferCategory_eq, if_neg (by simp [h1]), if_neg (by simp [h2]), if_pos h3]
  · intro h1 h2 h3 h4
    rw [hcat, inferCategory_eq, if_neg (by simp [h1]), if_neg (by simp [h2]),
      if_neg (by simp [h3]), if_pos h4]
  · intro h1 h2 h3 h4 h5
    rw [hcat, inferCategory_eq, if_neg (by simp [h1]), if_neg (by simp [h2]),
      if_neg (by simp [h3]), if_neg (by simp [h4]), if_pos h5]
  · intro h1 h2 h3 h4 h5
    rw [hcat, inferCategory_eq, if_neg (by simp [h1]), if_neg (by simp [h2]),
      if_neg (by simp [h3]), if_neg (by simp [h4]), if_neg (by simp [h5])]

/-- C8 witness: registering `docs/search_docs` stores it under that key
with priority 100 and Search category (its name contains `search`). -/
theorem claim_C8_adaptMcpTool_witness :
    mapGet (registerMcpTool initialRegistry ⟨"docs", "search_docs", none, none⟩).mcpTools
        "docs/search_docs" = some (adaptMcpTool ⟨"docs", "search_docs", none, none⟩) ∧
    (adaptMcpTool ⟨"docs", "search_docs", none, none⟩).category = ToolCategory.SEARCH := by
  have h := claim_C8_adaptMcpTool initialRegistry ⟨"docs", "search_docs", none, none⟩
  exact ⟨h.2.1, h.2.2.2.2.1 (by decide)⟩

end CodeConductor
